import Mathlib

/-!
Verification of core components of a DNS toolkit (dnspython fork):
serial-number arithmetic (`dns/serial.py`), the ordered unique set
(`dns/set.py`), the immutable-construction discipline
(`dns/_immutable_ctx.py`), and the wire-format renderer
(`dns/renderer.py`).  Each Python class/method is shallowly embedded as
a Lean definition; Python `int` becomes `Int`/`Nat` with explicit
modular reduction, mutation becomes explicit state passing, exceptions
become `Option`/error-carrying results.
-/

/-! ## dns/serial.py : RFC 1982 serial number arithmetic -/

/-- `dns.serial.Serial`: a fixed-width counter.  `value` is kept in
`[0, 2^bits)` by the constructor. -/
structure Serial where
  value : Nat
  bits : Nat
  deriving Repr, DecidableEq

/-- `Serial.__init__(value, bits)`: `self.value = value % 2**bits`.
Python `%` on a possibly negative `int` yields a nonnegative result,
which is `Int.emod` here. -/
def Serial.ofInt (v : Int) (bits : Nat) : Serial :=
  ⟨(v % (2 ^ bits : Nat)).toNat, bits⟩

/-- `Serial.__eq__` restricted to a `Serial` argument: `NotImplemented`
(modelled as `none`) when the widths differ, else numeric equality of
the values. -/
def Serial.eqM (a b : Serial) : Option Bool :=
  if a.bits = b.bits then some (a.value == b.value) else none

/-- `Serial.__lt__` restricted to a `Serial` argument: `NotImplemented`
(`none`) when the widths differ, else the two-branch circular
comparison from the source. -/
def Serial.ltM (a b : Serial) : Option Bool :=
  if a.bits = b.bits then
    some (decide (a.value < b.value ∧ b.value - a.value < 2 ^ (a.bits - 1)) ||
          decide (a.value > b.value ∧ a.value - b.value > 2 ^ (a.bits - 1)))
  else none

/-- `Serial.__gt__` restricted to a `Serial` argument. -/
def Serial.gtM (a b : Serial) : Option Bool :=
  if a.bits = b.bits then
    some (decide (a.value < b.value ∧ b.value - a.value > 2 ^ (a.bits - 1)) ||
          decide (a.value > b.value ∧ a.value - b.value < 2 ^ (a.bits - 1)))
  else none

/-- `Serial.__add__` with an integer delta (a `Serial` argument
contributes `other.value` as the delta): `ValueError` (`none`) when
`|delta| > 2^(bits-1) - 1`, else the sum reduced mod `2^bits`. -/
def Serial.addI (a : Serial) (delta : Int) : Option Serial :=
  if delta.natAbs > 2 ^ (a.bits - 1) - 1 then none
  else some ⟨(((a.value : Int) + delta) % (2 ^ a.bits : Nat)).toNat, a.bits⟩

/-- `Serial.__iadd__`: the in-place variant computes the same new state
(the embedding returns the updated object). -/
def Serial.iaddI (a : Serial) (delta : Int) : Option Serial :=
  if delta.natAbs > 2 ^ (a.bits - 1) - 1 then none
  else some ⟨(((a.value : Int) + delta) % (2 ^ a.bits : Nat)).toNat, a.bits⟩

/-- `Serial.__sub__` with an integer delta: `ValueError` (`none`) when
`|delta| > 2^(bits-1) - 1`, else the difference reduced mod `2^bits`. -/
def Serial.subI (a : Serial) (delta : Int) : Option Serial :=
  if delta.natAbs > 2 ^ (a.bits - 1) - 1 then none
  else some ⟨(((a.value : Int) - delta) % (2 ^ a.bits : Nat)).toNat, a.bits⟩

/-- `Serial.__isub__`: in-place variant of subtraction. -/
def Serial.isubI (a : Serial) (delta : Int) : Option Serial :=
  if delta.natAbs > 2 ^ (a.bits - 1) - 1 then none
  else some ⟨(((a.value : Int) - delta) % (2 ^ a.bits : Nat)).toNat, a.bits⟩

/-- The RFC 1982 circular distance `(b.value - a.value) mod 2^bits`,
computed in `Nat` as `(b + 2^bits - a) % 2^bits` (valid when both
values are below `2^bits`). -/
def serialDist (a b : Serial) : Nat :=
  (b.value + 2 ^ a.bits - a.value) % 2 ^ a.bits

theorem serialDist_eq (a b : Serial) (h1 : a.value < 2 ^ a.bits)
    (h2 : b.value < 2 ^ a.bits) :
    serialDist a b = if a.value ≤ b.value then b.value - a.value
      else b.value + 2 ^ a.bits - a.value := by
  unfold serialDist
  rcases le_or_lt a.value b.value with hle | hlt
  · rw [if_pos hle]
    have hsplit : b.value + 2 ^ a.bits - a.value = (b.value - a.value) + 2 ^ a.bits := by
      omega
    rw [hsplit, Nat.add_mod_right, Nat.mod_eq_of_lt (by omega)]
  · rw [if_neg (by omega)]
    exact Nat.mod_eq_of_lt (by omega)

/-- C5: for same-width serials, equality is numeric equality of the
values, and `__lt__` agrees with the RFC 1982 circular-distance rule
`0 < (b - a) mod 2^bits < 2^(bits-1)`; the rule is checked concretely
at the 32-bit boundary values `2^31 - 1`, `2^31`, `2^31 + 1`, at the
antipodal pair (neither direction holds), and on a 3-cycle showing
non-transitivity. -/
theorem serial_cmp_law (a b : Serial) (hb : a.bits = b.bits) (hbits : 0 < a.bits)
    (h1 : a.value < 2 ^ a.bits) (h2 : b.value < 2 ^ a.bits) :
    Serial.eqM a b = some (a.value == b.value) ∧
    Serial.ltM a b = some (decide (0 < serialDist a b ∧
      serialDist a b < 2 ^ (a.bits - 1))) ∧
    Serial.ltM ⟨0, 32⟩ ⟨2 ^ 31 - 1, 32⟩ = some true ∧
    Serial.ltM ⟨0, 32⟩ ⟨2 ^ 31, 32⟩ = some false ∧
    Serial.ltM ⟨2 ^ 31, 32⟩ ⟨0, 32⟩ = some false ∧
    Serial.ltM ⟨0, 32⟩ ⟨2 ^ 31 + 1, 32⟩ = some false ∧
    Serial.ltM ⟨2 ^ 31 + 1, 32⟩ ⟨0, 32⟩ = some true ∧
    Serial.ltM ⟨0, 32⟩ ⟨1431655765, 32⟩ = some true ∧
    Serial.ltM ⟨1431655765, 32⟩ ⟨2863311530, 32⟩ = some true ∧
    Serial.ltM ⟨2863311530, 32⟩ ⟨0, 32⟩ = some true := by
  refine ⟨?_, ?_, by decide, by decide, by decide, by decide, by decide,
    by decide, by decide, by decide⟩
  · unfold Serial.eqM
    rw [if_pos hb]
  · unfold Serial.ltM
    rw [if_pos hb]
    congr 1
    rw [Bool.eq_iff_iff]
    simp only [Bool.or_eq_true, decide_eq_true_eq]
    have hm : 2 ^ a.bits = 2 ^ (a.bits - 1) * 2 := by
      rw [← pow_succ]
      congr 1
      omega
    rw [serialDist_eq a b h1 h2]
    rcases le_or_lt a.value b.value with hle | hlt
    · rw [if_pos hle]
      omega
    · rw [if_neg (by omega)]
      omega

theorem serial_cmp_law_witness :
    (⟨10, 32⟩ : Serial).bits = (⟨20, 32⟩ : Serial).bits ∧
    0 < (⟨10, 32⟩ : Serial).bits ∧
    (⟨10, 32⟩ : Serial).value < 2 ^ 32 ∧ (⟨20, 32⟩ : Serial).value < 2 ^ 32 ∧
    Serial.ltM ⟨10, 32⟩ ⟨20, 32⟩ = some (decide (0 < serialDist ⟨10, 32⟩ ⟨20, 32⟩ ∧
      serialDist ⟨10, 32⟩ ⟨20, 32⟩ < 2 ^ ((⟨10, 32⟩ : Serial).bits - 1))) :=
  ⟨rfl, by decide, by decide, by decide,
    (serial_cmp_law ⟨10, 32⟩ ⟨20, 32⟩ rfl (by decide) (by decide) (by decide)).2.1⟩

/-- `Serial.__ne__` restricted to a `Serial` argument. -/
def Serial.neM (a b : Serial) : Option Bool :=
  if a.bits = b.bits then some (a.value != b.value) else none

/-- C6: comparing serials of different bit-widths signals "not
comparable" (`NotImplemented`, modelled as `none`) for equality,
inequality and both strict orderings, never a default truth value. -/
theorem serial_diff_bits_incomparable (a b : Serial) (h : a.bits ≠ b.bits) :
    Serial.eqM a b = none ∧ Serial.neM a b = none ∧
    Serial.ltM a b = none ∧ Serial.gtM a b = none := by
  unfold Serial.eqM Serial.neM Serial.ltM Serial.gtM
  rw [if_neg h, if_neg h, if_neg h, if_neg h]
  exact ⟨rfl, rfl, rfl, rfl⟩

theorem serial_diff_bits_incomparable_witness :
    (⟨5, 32⟩ : Serial).bits ≠ (⟨5, 64⟩ : Serial).bits ∧
    (Serial.eqM ⟨5, 32⟩ ⟨5, 64⟩ = none ∧ Serial.neM ⟨5, 32⟩ ⟨5, 64⟩ = none ∧
     Serial.ltM ⟨5, 32⟩ ⟨5, 64⟩ = none ∧ Serial.gtM ⟨5, 32⟩ ⟨5, 64⟩ = none) :=
  ⟨by decide, serial_diff_bits_incomparable ⟨5, 32⟩ ⟨5, 64⟩ (by decide)⟩

theorem int_emod_toNat_lt (x : Int) (n : Nat) :
    (x % ((2 ^ n : Nat) : Int)).toNat < 2 ^ n := by
  have hpos : (0 : Int) < ((2 ^ n : Nat) : Int) := by
    exact_mod_cast pow_pos (by norm_num : (0 : Nat) < 2) n
  have h1 := Int.emod_lt_of_pos x hpos
  have h2 := Int.emod_nonneg x (ne_of_gt hpos)
  omega

/-- C10: the constructor is total and normalizes modulo the width —
`Serial(v, bits).value = v mod 2^bits` for every integer `v` (negative
and out-of-range included) — and addition, subtraction and their
in-place variants all keep `value` in `[0, 2^bits)` and preserve the
width. -/
theorem serial_ctor_normalizes (v d : Int) (bits : Nat) (a s t u w : Serial)
    (hadd : Serial.addI a d = some s) (hiadd : Serial.iaddI a d = some u)
    (hsub : Serial.subI a d = some t) (hisub : Serial.isubI a d = some w) :
    ((Serial.ofInt v bits).value : Int) = v % (2 ^ bits : Nat) ∧
    (Serial.ofInt v bits).bits = bits ∧
    (Serial.ofInt v bits).value < 2 ^ bits ∧
    (s.value < 2 ^ s.bits ∧ s.bits = a.bits) ∧
    (u.value < 2 ^ u.bits ∧ u.bits = a.bits) ∧
    (t.value < 2 ^ t.bits ∧ t.bits = a.bits) ∧
    (w.value < 2 ^ w.bits ∧ w.bits = a.bits) := by
  have hpos : (0 : Int) < ((2 ^ bits : Nat) : Int) := by
    exact_mod_cast pow_pos (by norm_num : (0 : Nat) < 2) bits
  refine ⟨?_, rfl, ?_, ?_, ?_, ?_, ?_⟩
  · exact Int.toNat_of_nonneg (Int.emod_nonneg v (ne_of_gt hpos))
  · exact int_emod_toNat_lt v bits
  · unfold Serial.addI at hadd
    split at hadd
    · exact absurd hadd (by simp)
    · rw [Option.some_inj] at hadd
      subst hadd
      exact ⟨int_emod_toNat_lt _ a.bits, rfl⟩
  · unfold Serial.iaddI at hiadd
    split at hiadd
    · exact absurd hiadd (by simp)
    · rw [Option.some_inj] at hiadd
      subst hiadd
      exact ⟨int_emod_toNat_lt _ a.bits, rfl⟩
  · unfold Serial.subI at hsub
    split at hsub
    · exact absurd hsub (by simp)
    · rw [Option.some_inj] at hsub
      subst hsub
      exact ⟨int_emod_toNat_lt _ a.bits, rfl⟩
  · unfold Serial.isubI at hisub
    split at hisub
    · exact absurd hisub (by simp)
    · rw [Option.some_inj] at hisub
      subst hisub
      exact ⟨int_emod_toNat_lt _ a.bits, rfl⟩

theorem serial_ctor_normalizes_witness :
    Serial.addI ⟨3, 32⟩ 7 = some ⟨10, 32⟩ ∧
    Serial.iaddI ⟨3, 32⟩ 7 = some ⟨10, 32⟩ ∧
    Serial.subI ⟨3, 32⟩ 7 = some ⟨4294967292, 32⟩ ∧
    Serial.isubI ⟨3, 32⟩ 7 = some ⟨4294967292, 32⟩ ∧
    ((Serial.ofInt (-5) 3).value : Int) = (-5 : Int) % ((2 ^ 3 : Nat) : Int) := by
  have h := serial_ctor_normalizes (-5) 7 3 ⟨3, 32⟩ ⟨10, 32⟩ ⟨4294967292, 32⟩
    ⟨10, 32⟩ ⟨4294967292, 32⟩ (by decide) (by decide) (by decide) (by decide)
  exact ⟨by decide, by decide, by decide, by decide, h.1⟩

/-! ## dns/set.py : insertion-ordered unique set

`dns.set.Set` is backed by an insertion-ordered dict from item to
`None`; we embed the dict as the list of its keys in insertion order.
The list-level primitives below mirror the method bodies; `DSet` wraps
them for value-level reasoning, and a small explicit heap (further
down) captures Python object identity for the frame-effect claims. -/

/-- `Set.add`: insert at the end iff not already present. -/
def listAdd [DecidableEq T] (l : List T) (x : T) : List T :=
  if x ∈ l then l else l ++ [x]

/-- `Set.discard`: `self.items.pop(item, None)` — drop the key if present. -/
def listDiscard [DecidableEq T] (l : List T) (x : T) : List T :=
  l.filter (fun y => y ≠ x)

/-- `Set.union_update` body (distinct-objects path): `for item in
other.items: self.add(item)`. -/
def unionItems [DecidableEq T] (l m : List T) : List T :=
  m.foldl listAdd l

/-- `Set.intersection_update` body (distinct-objects path): delete every
key of `self` that is not in `other`, keeping the order of the rest. -/
def interItems [DecidableEq T] (l m : List T) : List T :=
  l.filter (fun y => y ∈ m)

/-- `Set.difference_update` body (distinct-objects path): `for item in
other.items: self.discard(item)`. -/
def diffItems [DecidableEq T] (l m : List T) : List T :=
  m.foldl listDiscard l

/-- `Set.symmetric_difference_update` body (distinct-objects path):
`overlap = self.intersection(other)` computed first, then
`self.union_update(other)`, then `self.difference_update(overlap)`. -/
def symdiffItems [DecidableEq T] (l m : List T) : List T :=
  diffItems (unionItems l m) (interItems l m)

/-- `dns.set.Set` as a value: the keys of the backing dict. -/
structure DSet (T : Type) where
  items : List T
  deriving Repr, DecidableEq

/-- `Set.union`: `obj = self._clone(); obj.union_update(other)`.  The
clone is a fresh object, so the update always takes the
distinct-objects path. -/
def DSet.union [DecidableEq T] (a b : DSet T) : DSet T :=
  ⟨unionItems a.items b.items⟩

/-- `Set.intersection` via clone-then-update. -/
def DSet.intersection [DecidableEq T] (a b : DSet T) : DSet T :=
  ⟨interItems a.items b.items⟩

/-- `Set.difference` via clone-then-update. -/
def DSet.difference [DecidableEq T] (a b : DSet T) : DSet T :=
  ⟨diffItems a.items b.items⟩

/-- `Set.symmetric_difference` via clone-then-update. -/
def DSet.symdiff [DecidableEq T] (a b : DSet T) : DSet T :=
  ⟨symdiffItems a.items b.items⟩

/-- `Set.__eq__`: Python dict equality, i.e. same key set (order is
irrelevant to `==` even though iteration order is preserved). -/
def DSet.dicteq [DecidableEq T] (a b : DSet T) : Bool :=
  a.items.all (fun x => x ∈ b.items) && b.items.all (fun x => x ∈ a.items)

theorem mem_listAdd [DecidableEq T] (l : List T) (x y : T) :
    y ∈ listAdd l x ↔ y ∈ l ∨ y = x := by
  unfold listAdd
  split
  · constructor
    · exact fun h => Or.inl h
    · rintro (h | rfl)
      · exact h
      · assumption
  · simp

theorem mem_unionItems [DecidableEq T] (l m : List T) (y : T) :
    y ∈ unionItems l m ↔ y ∈ l ∨ y ∈ m := by
  unfold unionItems
  induction m generalizing l with
  | nil => simp
  | cons z m ih =>
    rw [List.foldl_cons, ih, mem_listAdd]
    simp only [List.mem_cons]
    tauto

theorem mem_listDiscard [DecidableEq T] (l : List T) (x y : T) :
    y ∈ listDiscard l x ↔ y ∈ l ∧ y ≠ x := by
  unfold listDiscard
  simp [List.mem_filter]

theorem mem_diffItems [DecidableEq T] (l m : List T) (y : T) :
    y ∈ diffItems l m ↔ y ∈ l ∧ y ∉ m := by
  unfold diffItems
  induction m generalizing l with
  | nil => simp
  | cons z m ih =>
    rw [List.foldl_cons, ih, mem_listDiscard]
    simp only [List.mem_cons]
    tauto

theorem mem_interItems [DecidableEq T] (l m : List T) (y : T) :
    y ∈ interItems l m ↔ y ∈ l ∧ y ∈ m := by
  unfold interItems
  simp [List.mem_filter]

theorem mem_symdiffItems [DecidableEq T] (l m : List T) (y : T) :
    y ∈ symdiffItems l m ↔ (y ∈ l ∨ y ∈ m) ∧ ¬(y ∈ l ∧ y ∈ m) := by
  unfold symdiffItems
  rw [mem_diffItems, mem_unionItems, mem_interItems]

/-- A Python object holding a set: its concrete class (an opaque tag)
and the keys of its backing dict. -/
structure SetObj (T : Type) where
  kind : Nat
  items : List T
  deriving Repr, DecidableEq

/-- An explicit object heap, to capture Python object identity (`is`)
and aliasing: object ids are allocated in increasing order. -/
structure Heap (T : Type) where
  mem : Nat → Option (SetObj T)
  next : Nat

/-- Heap well-formedness: nothing lives at or beyond the allocation
cursor. -/
def Heap.wf (h : Heap T) : Prop := ∀ i, h.next ≤ i → h.mem i = none

/-- Overwrite the object at id `i` (in-place mutation of one object). -/
def Heap.write (h : Heap T) (i : Nat) (o : SetObj T) : Heap T :=
  ⟨fun j => if j = i then some o else h.mem j, h.next⟩

/-- Allocate a fresh object; returns the new heap and the fresh id. -/
def Heap.alloc (h : Heap T) (o : SetObj T) : Heap T × Nat :=
  (⟨fun j => if j = h.next then some o else h.mem j, h.next + 1⟩, h.next)

/-- `Set._clone`: `cls.__new__(cls)` with a copy of the backing dict.
No class in the repository defines `_clone_class`, so the clone's class
is the receiver's own (`self.__class__`). -/
def cloneH (h : Heap T) (s : Nat) : Heap T × Nat :=
  match h.mem s with
  | some ob => h.alloc ⟨ob.kind, ob.items⟩
  | none => (h, s)

/-- `Set.union_update` on the heap: guarded no-op when `self is other`,
else mutate `self` in place.  (The `isinstance` guard cannot fire: the
heap only holds `Set` objects.) -/
def union_updateH [DecidableEq T] (h : Heap T) (s o : Nat) : Heap T :=
  if s = o then h
  else
    match h.mem s, h.mem o with
    | some so, some oo => h.write s ⟨so.kind, unionItems so.items oo.items⟩
    | _, _ => h

/-- `Set.intersection_update` on the heap: guarded no-op when `self is
other`, else mutate `self` in place. -/
def intersection_updateH [DecidableEq T] (h : Heap T) (s o : Nat) : Heap T :=
  if s = o then h
  else
    match h.mem s, h.mem o with
    | some so, some oo => h.write s ⟨so.kind, interItems so.items oo.items⟩
    | _, _ => h

/-- `Set.difference_update` on the heap: a full `self.items.clear()`
when `self is other`, else mutate `self` in place. -/
def difference_updateH [DecidableEq T] (h : Heap T) (s o : Nat) : Heap T :=
  if s = o then
    match h.mem s with
    | some so => h.write s ⟨so.kind, []⟩
    | none => h
  else
    match h.mem s, h.mem o with
    | some so, some oo => h.write s ⟨so.kind, diffItems so.items oo.items⟩
    | _, _ => h

/-- `Set.intersection`: clone the receiver, then update the clone. -/
def intersectionH [DecidableEq T] (h : Heap T) (a b : Nat) : Heap T × Nat :=
  (intersection_updateH (cloneH h a).1 (cloneH h a).2 b, (cloneH h a).2)

/-- `Set.symmetric_difference_update` on the heap: a full clear when
`self is other`; otherwise the overlap (`self.intersection(other)`, a
fresh object) is computed before `union_update` mutates the receiver,
then removed. -/
def symmetric_difference_updateH [DecidableEq T] (h : Heap T) (s o : Nat) : Heap T :=
  if s = o then
    match h.mem s with
    | some so => h.write s ⟨so.kind, []⟩
    | none => h
  else
    difference_updateH
      (union_updateH (intersectionH h s o).1 s o) s (intersectionH h s o).2

/-- `Set.union`: clone the receiver, then update the clone. -/
def unionH [DecidableEq T] (h : Heap T) (a b : Nat) : Heap T × Nat :=
  (union_updateH (cloneH h a).1 (cloneH h a).2 b, (cloneH h a).2)

/-- `Set.difference`: clone the receiver, then update the clone. -/
def differenceH [DecidableEq T] (h : Heap T) (a b : Nat) : Heap T × Nat :=
  (difference_updateH (cloneH h a).1 (cloneH h a).2 b, (cloneH h a).2)

/-- `Set.symmetric_difference`: clone the receiver, then update the
clone. -/
def symmetric_differenceH [DecidableEq T] (h : Heap T) (a b : Nat) : Heap T × Nat :=
  (symmetric_difference_updateH (cloneH h a).1 (cloneH h a).2 b, (cloneH h a).2)

/-- `Set.add` on the heap (a representative mutation of a result). -/
def addH [DecidableEq T] (h : Heap T) (s : Nat) (x : T) : Heap T :=
  match h.mem s with
  | some so => h.write s ⟨so.kind, listAdd so.items x⟩
  | none => h

theorem Heap.lt_next_of_mem (h : Heap T) (a : Nat) (oa : SetObj T)
    (hwf : h.wf) (ha : h.mem a = some oa) : a < h.next := by
  by_contra hcon
  rw [hwf a (by omega)] at ha
  exact Option.noConfusion ha

theorem addH_mem_ne [DecidableEq T] (h : Heap T) (s j : Nat) (x : T)
    (hj : j ≠ s) : (addH h s x).mem j = h.mem j := by
  unfold addH
  split
  · simp [Heap.write, hj]
  · rfl

theorem Heap.write_mem (h : Heap T) (i j : Nat) (o : SetObj T) :
    (h.write i o).mem j = if j = i then some o else h.mem j := rfl

theorem Heap.write_next (h : Heap T) (i : Nat) (o : SetObj T) :
    (h.write i o).next = h.next := rfl

theorem Heap.alloc_mem (h : Heap T) (o : SetObj T) (j : Nat) :
    (h.alloc o).1.mem j = if j = h.next then some o else h.mem j := rfl

theorem Heap.alloc_next (h : Heap T) (o : SetObj T) :
    (h.alloc o).1.next = h.next + 1 := rfl

theorem Heap.alloc_id (h : Heap T) (o : SetObj T) :
    (h.alloc o).2 = h.next := rfl

theorem clone_spec (h : Heap T) (a : Nat) (oa : SetObj T)
    (ha : h.mem a = some oa) :
    cloneH h a = h.alloc ⟨oa.kind, oa.items⟩ := by
  unfold cloneH
  rw [ha]

theorem union_updateH_eq [DecidableEq T] (h : Heap T) (s o : Nat)
    (so oo : SetObj T) (hso : h.mem s = some so) (hoo : h.mem o = some oo)
    (hne : s ≠ o) :
    union_updateH h s o = h.write s ⟨so.kind, unionItems so.items oo.items⟩ := by
  unfold union_updateH
  rw [if_neg hne, hso, hoo]

theorem intersection_updateH_eq [DecidableEq T] (h : Heap T) (s o : Nat)
    (so oo : SetObj T) (hso : h.mem s = some so) (hoo : h.mem o = some oo)
    (hne : s ≠ o) :
    intersection_updateH h s o = h.write s ⟨so.kind, interItems so.items oo.items⟩ := by
  unfold intersection_updateH
  rw [if_neg hne, hso, hoo]

theorem difference_updateH_eq [DecidableEq T] (h : Heap T) (s o : Nat)
    (so oo : SetObj T) (hso : h.mem s = some so) (hoo : h.mem o = some oo)
    (hne : s ≠ o) :
    difference_updateH h s o = h.write s ⟨so.kind, diffItems so.items oo.items⟩ := by
  unfold difference_updateH
  rw [if_neg hne, hso, hoo]

theorem unionH_spec [DecidableEq T] (h : Heap T) (a b : Nat) (oa ob : SetObj T)
    (hwf : h.wf) (ha : h.mem a = some oa) (hb : h.mem b = some ob) :
    (unionH h a b).2 = h.next ∧
    (unionH h a b).1.next = h.next + 1 ∧
    (unionH h a b).1.mem h.next = some ⟨oa.kind, unionItems oa.items ob.items⟩ ∧
    ∀ j, j < h.next → (unionH h a b).1.mem j = h.mem j := by
  have halt := Heap.lt_next_of_mem h a oa hwf ha
  have hblt := Heap.lt_next_of_mem h b ob hwf hb
  have hc := clone_spec h a oa ha
  have h2 : (cloneH h a).2 = h.next := by rw [hc, Heap.alloc_id]
  have hmb : (cloneH h a).1.mem b = some ob := by
    rw [hc, Heap.alloc_mem, if_neg (by omega), hb]
  have hms : (cloneH h a).1.mem h.next = some ⟨oa.kind, oa.items⟩ := by
    rw [hc, Heap.alloc_mem, if_pos rfl]
  have hupd := union_updateH_eq (cloneH h a).1 h.next b ⟨oa.kind, oa.items⟩ ob
    hms hmb (by omega)
  unfold unionH
  rw [h2, hupd]
  refine ⟨rfl, ?_, ?_, ?_⟩
  · rw [Heap.write_next, hc, Heap.alloc_next]
  · rw [Heap.write_mem, if_pos rfl]
  · intro j hj
    rw [Heap.write_mem, if_neg (by omega), hc, Heap.alloc_mem, if_neg (by omega)]

theorem intersectionH_spec [DecidableEq T] (h : Heap T) (a b : Nat)
    (oa ob : SetObj T)
    (hwf : h.wf) (ha : h.mem a = some oa) (hb : h.mem b = some ob) :
    (intersectionH h a b).2 = h.next ∧
    (intersectionH h a b).1.next = h.next + 1 ∧
    (intersectionH h a b).1.mem h.next = some ⟨oa.kind, interItems oa.items ob.items⟩ ∧
    ∀ j, j < h.next → (intersectionH h a b).1.mem j = h.mem j := by
  have halt := Heap.lt_next_of_mem h a oa hwf ha
  have hblt := Heap.lt_next_of_mem h b ob hwf hb
  have hc := clone_spec h a oa ha
  have h2 : (cloneH h a).2 = h.next := by rw [hc, Heap.alloc_id]
  have hmb : (cloneH h a).1.mem b = some ob := by
    rw [hc, Heap.alloc_mem, if_neg (by omega), hb]
  have hms : (cloneH h a).1.mem h.next = some ⟨oa.kind, oa.items⟩ := by
    rw [hc, Heap.alloc_mem, if_pos rfl]
  have hupd := intersection_updateH_eq (cloneH h a).1 h.next b ⟨oa.kind, oa.items⟩ ob
    hms hmb (by omega)
  unfold intersectionH
  rw [h2, hupd]
  refine ⟨rfl, ?_, ?_, ?_⟩
  · rw [Heap.write_next, hc, Heap.alloc_next]
  · rw [Heap.write_mem, if_pos rfl]
  · intro j hj
    rw [Heap.write_mem, if_neg (by omega), hc, Heap.alloc_mem, if_neg (by omega)]

theorem differenceH_spec [DecidableEq T] (h : Heap T) (a b : Nat)
    (oa ob : SetObj T)
    (hwf : h.wf) (ha : h.mem a = some oa) (hb : h.mem b = some ob) :
    (differenceH h a b).2 = h.next ∧
    (differenceH h a b).1.next = h.next + 1 ∧
    (differenceH h a b).1.mem h.next = some ⟨oa.kind, diffItems oa.items ob.items⟩ ∧
    ∀ j, j < h.next → (differenceH h a b).1.mem j = h.mem j := by
  have halt := Heap.lt_next_of_mem h a oa hwf ha
  have hblt := Heap.lt_next_of_mem h b ob hwf hb
  have hc := clone_spec h a oa ha
  have h2 : (cloneH h a).2 = h.next := by rw [hc, Heap.alloc_id]
  have hmb : (cloneH h a).1.mem b = some ob := by
    rw [hc, Heap.alloc_mem, if_neg (by omega), hb]
  have hms : (cloneH h a).1.mem h.next = some ⟨oa.kind, oa.items⟩ := by
    rw [hc, Heap.alloc_mem, if_pos rfl]
  have hupd := difference_updateH_eq (cloneH h a).1 h.next b ⟨oa.kind, oa.items⟩ ob
    hms hmb (by omega)
  unfold differenceH
  rw [h2, hupd]
  refine ⟨rfl, ?_, ?_, ?_⟩
  · rw [Heap.write_next, hc, Heap.alloc_next]
  · rw [Heap.write_mem, if_pos rfl]
  · intro j hj
    rw [Heap.write_mem, if_neg (by omega), hc, Heap.alloc_mem, if_neg (by omega)]

theorem cloneH_wf (h : Heap T) (a : Nat) (oa : SetObj T)
    (hwf : h.wf) (ha : h.mem a = some oa) : (cloneH h a).1.wf := by
  intro i hi
  rw [clone_spec h a oa ha] at hi ⊢
  rw [Heap.alloc_mem, if_neg (by rw [Heap.alloc_next] at hi; omega)]
  exact hwf i (by rw [Heap.alloc_next] at hi; omega)

theorem symmetric_differenceH_spec [DecidableEq T] (h : Heap T) (a b : Nat)
    (oa ob : SetObj T)
    (hwf : h.wf) (ha : h.mem a = some oa) (hb : h.mem b = some ob) :
    (symmetric_differenceH h a b).2 = h.next ∧
    (symmetric_differenceH h a b).1.next = h.next + 2 ∧
    (symmetric_differenceH h a b).1.mem h.next =
      some ⟨oa.kind, symdiffItems oa.items ob.items⟩ ∧
    ∀ j, j < h.next → (symmetric_differenceH h a b).1.mem j = h.mem j := by
  have halt := Heap.lt_next_of_mem h a oa hwf ha
  have hblt := Heap.lt_next_of_mem h b ob hwf hb
  have hc := clone_spec h a oa ha
  have h2 : (cloneH h a).2 = h.next := by rw [hc, Heap.alloc_id]
  have hnext1 : (cloneH h a).1.next = h.next + 1 := by rw [hc, Heap.alloc_next]
  have hwf1 := cloneH_wf h a oa hwf ha
  have hmb : (cloneH h a).1.mem b = some ob := by
    rw [hc, Heap.alloc_mem, if_neg (by omega), hb]
  have hms : (cloneH h a).1.mem h.next = some ⟨oa.kind, oa.items⟩ := by
    rw [hc, Heap.alloc_mem, if_pos rfl]
  obtain ⟨hi2, hinext, himem, hiframe⟩ :=
    intersectionH_spec (cloneH h a).1 h.next b ⟨oa.kind, oa.items⟩ ob hwf1 hms hmb
  rw [hnext1] at hinext
  rw [hnext1] at himem
  rw [hnext1] at hi2
  -- the heap after the internal `overlap = self.intersection(other)`
  have hImemN : (intersectionH (cloneH h a).1 h.next b).1.mem h.next =
      some ⟨oa.kind, oa.items⟩ := by
    rw [hiframe h.next (by omega), hms]
  have hImemB : (intersectionH (cloneH h a).1 h.next b).1.mem b = some ob := by
    rw [hiframe b (by omega), hmb]
  have hu := union_updateH_eq (intersectionH (cloneH h a).1 h.next b).1 h.next b
    ⟨oa.kind, oa.items⟩ ob hImemN hImemB (by omega)
  -- the heap after `self.union_update(other)`
  have hUmemN : (union_updateH (intersectionH (cloneH h a).1 h.next b).1 h.next b).mem
      h.next = some ⟨oa.kind, unionItems oa.items ob.items⟩ := by
    rw [hu, Heap.write_mem, if_pos rfl]
  have hUmemD : (union_updateH (intersectionH (cloneH h a).1 h.next b).1 h.next b).mem
      (h.next + 1) = some ⟨oa.kind, interItems oa.items ob.items⟩ := by
    rw [hu, Heap.write_mem, if_neg (by omega), himem]
  have hd := difference_updateH_eq
    (union_updateH (intersectionH (cloneH h a).1 h.next b).1 h.next b) h.next
    (h.next + 1) ⟨oa.kind, unionItems oa.items ob.items⟩
    ⟨oa.kind, interItems oa.items ob.items⟩ hUmemN hUmemD (by omega)
  unfold symmetric_differenceH
  rw [h2]
  unfold symmetric_difference_updateH
  rw [if_neg (by omega : ¬h.next = b), hi2, hd, hu]
  refine ⟨rfl, ?_, ?_, ?_⟩
  · rw [Heap.write_next, Heap.write_next, hinext]
  · rw [Heap.write_mem, if_pos rfl]
    rfl
  · intro j hj
    rw [Heap.write_mem, if_neg (by omega), Heap.write_mem, if_neg (by omega),
      hiframe j (by omega), hc, Heap.alloc_mem, if_neg (by omega)]

/-- C7: each non-update binary set operation returns a fresh object
(distinct from both operands) of the receiver's concrete kind; the
operands' stored state is exactly what it was before the call, and
mutating the result (here: `add`) leaves both operands unchanged. -/
theorem set_binary_ops_frame [DecidableEq T] (h : Heap T) (a b : Nat)
    (oa ob : SetObj T) (x : T)
    (hwf : h.wf) (ha : h.mem a = some oa) (hb : h.mem b = some ob) :
    ((unionH h a b).1.mem a = some oa ∧ (unionH h a b).1.mem b = some ob ∧
     (unionH h a b).2 ≠ a ∧ (unionH h a b).2 ≠ b ∧
     (∃ oc, (unionH h a b).1.mem (unionH h a b).2 = some oc ∧ oc.kind = oa.kind) ∧
     (addH (unionH h a b).1 (unionH h a b).2 x).mem a = some oa ∧
     (addH (unionH h a b).1 (unionH h a b).2 x).mem b = some ob) ∧
    ((intersectionH h a b).1.mem a = some oa ∧ (intersectionH h a b).1.mem b = some ob ∧
     (intersectionH h a b).2 ≠ a ∧ (intersectionH h a b).2 ≠ b ∧
     (∃ oc, (intersectionH h a b).1.mem (intersectionH h a b).2 = some oc ∧ oc.kind = oa.kind) ∧
     (addH (intersectionH h a b).1 (intersectionH h a b).2 x).mem a = some oa ∧
     (addH (intersectionH h a b).1 (intersectionH h a b).2 x).mem b = some ob) ∧
    ((differenceH h a b).1.mem a = some oa ∧ (differenceH h a b).1.mem b = some ob ∧
     (differenceH h a b).2 ≠ a ∧ (differenceH h a b).2 ≠ b ∧
     (∃ oc, (differenceH h a b).1.mem (differenceH h a b).2 = some oc ∧ oc.kind = oa.kind) ∧
     (addH (differenceH h a b).1 (differenceH h a b).2 x).mem a = some oa ∧
     (addH (differenceH h a b).1 (differenceH h a b).2 x).mem b = some ob) ∧
    ((symmetric_differenceH h a b).1.mem a = some oa ∧
     (symmetric_differenceH h a b).1.mem b = some ob ∧
     (symmetric_differenceH h a b).2 ≠ a ∧ (symmetric_differenceH h a b).2 ≠ b ∧
     (∃ oc, (symmetric_differenceH h a b).1.mem (symmetric_differenceH h a b).2 = some oc ∧
       oc.kind = oa.kind) ∧
     (addH (symmetric_differenceH h a b).1 (symmetric_differenceH h a b).2 x).mem a = some oa ∧
     (addH (symmetric_differenceH h a b).1 (symmetric_differenceH h a b).2 x).mem b = some ob) := by
  have halt := Heap.lt_next_of_mem h a oa hwf ha
  have hblt := Heap.lt_next_of_mem h b ob hwf hb
  refine ⟨?_, ?_, ?_, ?_⟩
  · obtain ⟨hid, hnx, hmc, hfr⟩ := unionH_spec h a b oa ob hwf ha hb
    refine ⟨?_, ?_, ?_, ?_, ?_, ?_, ?_⟩
    · rw [hfr a halt, ha]
    · rw [hfr b hblt, hb]
    · rw [hid]; omega
    · rw [hid]; omega
    · exact ⟨⟨oa.kind, unionItems oa.items ob.items⟩, by rw [hid, hmc], rfl⟩
    · rw [addH_mem_ne _ _ _ _ (by rw [hid]; omega), hfr a halt, ha]
    · rw [addH_mem_ne _ _ _ _ (by rw [hid]; omega), hfr b hblt, hb]
  · obtain ⟨hid, hnx, hmc, hfr⟩ := intersectionH_spec h a b oa ob hwf ha hb
    refine ⟨?_, ?_, ?_, ?_, ?_, ?_, ?_⟩
    · rw [hfr a halt, ha]
    · rw [hfr b hblt, hb]
    · rw [hid]; omega
    · rw [hid]; omega
    · exact ⟨⟨oa.kind, interItems oa.items ob.items⟩, by rw [hid, hmc], rfl⟩
    · rw [addH_mem_ne _ _ _ _ (by rw [hid]; omega), hfr a halt, ha]
    · rw [addH_mem_ne _ _ _ _ (by rw [hid]; omega), hfr b hblt, hb]
  · obtain ⟨hid, hnx, hmc, hfr⟩ := differenceH_spec h a b oa ob hwf ha hb
    refine ⟨?_, ?_, ?_, ?_, ?_, ?_, ?_⟩
    · rw [hfr a halt, ha]
    · rw [hfr b hblt, hb]
    · rw [hid]; omega
    · rw [hid]; omega
    · exact ⟨⟨oa.kind, diffItems oa.items ob.items⟩, by rw [hid, hmc], rfl⟩
    · rw [addH_mem_ne _ _ _ _ (by rw [hid]; omega), hfr a halt, ha]
    · rw [addH_mem_ne _ _ _ _ (by rw [hid]; omega), hfr b hblt, hb]
  · obtain ⟨hid, hnx, hmc, hfr⟩ := symmetric_differenceH_spec h a b oa ob hwf ha hb
    refine ⟨?_, ?_, ?_, ?_, ?_, ?_, ?_⟩
    · rw [hfr a halt, ha]
    · rw [hfr b hblt, hb]
    · rw [hid]; omega
    · rw [hid]; omega
    · exact ⟨⟨oa.kind, symdiffItems oa.items ob.items⟩, by rw [hid, hmc], rfl⟩
    · rw [addH_mem_ne _ _ _ _ (by rw [hid]; omega), hfr a halt, ha]
    · rw [addH_mem_ne _ _ _ _ (by rw [hid]; omega), hfr b hblt, hb]

/-- A concrete two-object heap for witnesses. -/
def heap2 : Heap Nat :=
  ⟨fun j => if j = 0 then some ⟨0, [1, 2]⟩ else
    if j = 1 then some ⟨0, [2, 3]⟩ else none, 2⟩

theorem heap2_wf : heap2.wf := by
  intro i hi
  have hi2 : 2 ≤ i := hi
  dsimp only [heap2]
  rw [if_neg (by omega), if_neg (by omega)]

theorem set_binary_ops_frame_witness :
    heap2.wf ∧ heap2.mem 0 = some ⟨0, [1, 2]⟩ ∧ heap2.mem 1 = some ⟨0, [2, 3]⟩ ∧
    ((unionH heap2 0 1).1.mem 0 = some ⟨0, [1, 2]⟩ ∧
     (unionH heap2 0 1).1.mem 1 = some ⟨0, [2, 3]⟩ ∧
     (unionH heap2 0 1).2 ≠ 0 ∧ (unionH heap2 0 1).2 ≠ 1 ∧
     (∃ oc, (unionH heap2 0 1).1.mem (unionH heap2 0 1).2 = some oc ∧ oc.kind = 0) ∧
     (addH (unionH heap2 0 1).1 (unionH heap2 0 1).2 5).mem 0 = some ⟨0, [1, 2]⟩ ∧
     (addH (unionH heap2 0 1).1 (unionH heap2 0 1).2 5).mem 1 = some ⟨0, [2, 3]⟩) :=
  ⟨heap2_wf, rfl, rfl,
    (set_binary_ops_frame heap2 0 1 ⟨0, [1, 2]⟩ ⟨0, [2, 3]⟩ 5 heap2_wf rfl rfl).1⟩

/-- C8: set-algebra laws — union is associative up to `Set.__eq__`
(dict equality, i.e. same key set), `a.difference(a)` and
`a.symmetric_difference(a)` are empty (these go through a fresh clone,
so they take the distinct-objects path), and the destructive
self-operations are a guarded no-op (`union_update`,
`intersection_update`) or a full clear (`difference_update`,
`symmetric_difference_update`), never an iterate-while-mutating
hazard. -/
theorem set_algebra_laws [DecidableEq T] (a b c : DSet T) (h : Heap T)
    (x : Nat) (ox : SetObj T) (hx : h.mem x = some ox) :
    DSet.dicteq ((a.union b).union c) (a.union (b.union c)) = true ∧
    (a.difference a).items = [] ∧
    (a.symdiff a).items = [] ∧
    union_updateH h x x = h ∧
    intersection_updateH h x x = h ∧
    (difference_updateH h x x).mem x = some ⟨ox.kind, []⟩ ∧
    (symmetric_difference_updateH h x x).mem x = some ⟨ox.kind, []⟩ := by
  refine ⟨?_, ?_, ?_, ?_, ?_, ?_, ?_⟩
  · have key : ∀ y : T, y ∈ ((a.union b).union c).items ↔
        y ∈ (a.union (b.union c)).items := by
      intro y
      unfold DSet.union
      simp only [mem_unionItems]
      tauto
    unfold DSet.dicteq
    rw [Bool.and_eq_true, List.all_eq_true, List.all_eq_true]
    constructor
    · intro y hy
      simpa using (key y).mp hy
    · intro y hy
      simpa using (key y).mpr hy
  · rw [List.eq_nil_iff_forall_not_mem]
    intro y
    unfold DSet.difference
    simp only [mem_diffItems]
    tauto
  · rw [List.eq_nil_iff_forall_not_mem]
    intro y
    unfold DSet.symdiff
    simp only [mem_symdiffItems]
    tauto
  · unfold union_updateH
    rw [if_pos rfl]
  · unfold intersection_updateH
    rw [if_pos rfl]
  · unfold difference_updateH
    rw [if_pos rfl, hx]
    show (h.write x ⟨ox.kind, []⟩).mem x = some ⟨ox.kind, []⟩
    rw [Heap.write_mem, if_pos rfl]
  · unfold symmetric_difference_updateH
    rw [if_pos rfl, hx]
    show (h.write x ⟨ox.kind, []⟩).mem x = some ⟨ox.kind, []⟩
    rw [Heap.write_mem, if_pos rfl]

theorem set_algebra_laws_witness :
    heap2.mem 0 = some ⟨0, [1, 2]⟩ ∧
    DSet.dicteq
      (DSet.union (DSet.union (⟨[1, 2]⟩ : DSet Nat) ⟨[2, 3]⟩) ⟨[4]⟩)
      (DSet.union (⟨[1, 2]⟩ : DSet Nat) (DSet.union ⟨[2, 3]⟩ ⟨[4]⟩)) = true ∧
    (DSet.difference (⟨[1, 2]⟩ : DSet Nat) ⟨[1, 2]⟩).items = [] ∧
    (DSet.symdiff (⟨[1, 2]⟩ : DSet Nat) ⟨[1, 2]⟩).items = [] ∧
    (difference_updateH heap2 0 0).mem 0 = some ⟨0, []⟩ := by
  have h := set_algebra_laws (⟨[1, 2]⟩ : DSet Nat) ⟨[2, 3]⟩ ⟨[4]⟩ heap2 0
    ⟨0, [1, 2]⟩ rfl
  exact ⟨rfl, h.1, h.2.1, h.2.2.1, h.2.2.2.2.2.1⟩

/-! ## dns/_immutable_ctx.py : immutable construction discipline

The `_immutable_in__init__` context variable holds `False` (here:
`none`) by default, or the instance currently executing its wrapped
`__init__`/`__setstate__` (here: `some id`, with Python object identity
modelled by ids). -/

/-- `_Immutable.__setattr__`: permitted only when the context variable
holds this very instance (`_in__init__.get() is self`); otherwise a
`TypeError` is raised and the attributes are untouched.  Returns
(success flag, resulting attributes). -/
def setattrI (ctx : Option Nat) (self : Nat) (attrs : String → Option V)
    (name : String) (v : V) : Bool × (String → Option V) :=
  if ctx = some self then (true, fun n => if n = name then some v else attrs n)
  else (false, attrs)

/-- `_Immutable.__delattr__`: same guard as `__setattr__`. -/
def delattrI (ctx : Option Nat) (self : Nat) (attrs : String → Option V)
    (name : String) : Bool × (String → Option V) :=
  if ctx = some self then (true, fun n => if n = name then none else attrs n)
  else (false, attrs)

/-- `_immutable_init`: the wrapper sets the context variable to the
instance, runs the wrapped initializer body, and resets the variable to
its previous value on exit (the `finally` block). -/
def immutable_init_run (self : Nat) (body : Option Nat → S → S)
    (ctx : Option Nat) (st : S) : Option Nat × S :=
  (ctx, body (some self) st)

/-- C9: during the instance's own wrapped initializer the context
variable holds that instance and assignment/deletion succeed; a
*different* instance cannot be written even then; in any context not
equal to the instance (in particular after the wrapper has reset the
variable on exit, which it always does) every set and delete fails and
leaves the attributes exactly as they were. -/
theorem immutable_freeze (V S : Type) (self other : Nat) (ctx : Option Nat)
    (attrs : String → Option V) (name : String) (v : V)
    (body : Option Nat → S → S) (st : S)
    (hother : other ≠ self) (hctx : ctx ≠ some self) :
    (setattrI (some self) self attrs name v).1 = true ∧
    (delattrI (some self) self attrs name).1 = true ∧
    setattrI (some self) other attrs name v = (false, attrs) ∧
    delattrI (some self) other attrs name = (false, attrs) ∧
    setattrI ctx self attrs name v = (false, attrs) ∧
    delattrI ctx self attrs name = (false, attrs) ∧
    (immutable_init_run self body ctx st).1 = ctx := by
  have hne : ¬(some self = some other) := by
    intro hcon
    exact hother (Option.some_inj.mp hcon).symm
  unfold setattrI delattrI immutable_init_run
  rw [if_pos rfl, if_pos rfl, if_neg hne, if_neg hne, if_neg hctx, if_neg hctx]
  exact ⟨rfl, rfl, rfl, rfl, rfl, rfl, rfl⟩

theorem immutable_freeze_witness :
    (1 : Nat) ≠ 0 ∧ (none : Option Nat) ≠ some 0 ∧
    (setattrI (some 0) 0 (fun _ => (none : Option Nat)) "rdclass" 7).1 = true ∧
    setattrI (none : Option Nat) 0 (fun _ => (none : Option Nat)) "rdclass" 7 =
      (false, fun _ => none) := by
  have h := immutable_freeze Nat Unit 0 1 none (fun _ => none) "rdclass" 7
    (fun _ s => s) () (by decide) (by simp)
  exact ⟨by decide, by simp, h.1, h.2.2.2.2.1⟩

/-! ## dns/renderer.py : wire-format message renderer

The output `io.BytesIO` is a byte list plus a cursor; `write` at the
cursor overwrites in place and extends (zero-filling any gap) as
needed; `getvalue()` returns the whole buffer.  Names in the
compression table are opaque tokens (`Nat`).  The payload serialization
the renderer delegates to the Record Codec Contract is abstracted as a
`CodecResult`: the bytes appended, the compression entries added, and
the record count returned. -/

def QUESTION : Nat := 0
def ANSWER : Nat := 1
def AUTHORITY : Nat := 2
def ADDITIONAL : Nat := 3

/-- `struct.pack("!H", n)`, big-endian 16-bit (faithful for `n < 2^16`;
Python raises `struct.error` beyond that, so theorems restrict to the
16-bit range where it matters). -/
def pack16 (n : Nat) : List Nat := [n / 256 % 256, n % 256]

/-- Big-endian 32-bit pack (the `I` of `struct.pack("!HHI", ...)`). -/
def pack32 (n : Nat) : List Nat :=
  [n / 2 ^ 24 % 256, n / 2 ^ 16 % 256, n / 2 ^ 8 % 256, n % 256]

/-- `io.BytesIO.write` at seek position `pos`: overwrite in place,
extending and zero-filling any gap past the end. -/
def bwrite (buf : List Nat) (pos : Nat) (bs : List Nat) : List Nat :=
  buf.take pos ++ List.replicate (pos - buf.length) 0 ++ bs ++
    buf.drop (pos + bs.length)

inductive DnsError
  | formError
  | tooBig
  deriving Repr, DecidableEq

/-- `dns.renderer.Renderer` state. -/
structure Renderer where
  id : Nat
  flags : Nat
  max_size : Nat
  compress : List (Nat × Nat)
  «section» : Nat
  counts : List Nat
  output : List Nat
  cursor : Nat
  reserved : Nat
  was_padded : Bool
  deriving Repr, DecidableEq

/-- `Renderer.__init__`: empty compression table, section QUESTION,
counts `[0, 0, 0, 0]`, 12 zero bytes written (cursor at 12). -/
def Renderer.new (id flags max_size : Nat) : Renderer :=
  ⟨id, flags, max_size, [], QUESTION, [0, 0, 0, 0],
    List.replicate 12 0, 12, 0, false⟩

/-- `Renderer._rollback(where)`: seek to `where`, truncate, and delete
every compression entry whose offset is at or beyond `where`. -/
def Renderer.rollback (r : Renderer) (w : Nat) : Renderer :=
  { r with
    cursor := w
    output := r.output.take w
    compress := r.compress.filter (fun p => p.2 < w) }

/-- `Renderer._set_section`: no-op on equality, `FormError` on moving
backward, else advance. -/
def Renderer.set_section (r : Renderer) (s : Nat) : Except DnsError Renderer :=
  if r.«section» ≠ s then
    if r.«section» > s then .error .formError
    else .ok { r with «section» := s }
  else .ok r

/-- One delegated codec write: the bytes appended at the cursor, the
compression-table entries inserted (the contract: they point at names
written by this very call, hence at offsets at or beyond the start
position), and the number of records written. -/
structure CodecResult where
  bytes : List Nat
  newEntries : List (Nat × Nat)
  n : Nat
  deriving Repr, DecidableEq

/-- Common body of `add_question` / `add_rrset` / `add_rdataset`:
`_set_section(section)`, then the `_track_size` transaction — record
the write position, perform the delegated write, and if the position
afterwards exceeds `max_size`, `_rollback` to the recorded position and
fail with `TooBig` — then, only on success, add the record count to the
section's counter.  The error component carries the renderer state the
raised exception leaves behind. -/
def Renderer.addContent (r : Renderer) (s : Nat) (cr : CodecResult) :
    Renderer × Option DnsError :=
  match r.set_section s with
  | .error e => (r, some e)
  | .ok r1 =>
    if r1.cursor + cr.bytes.length > r1.max_size then
      (Renderer.rollback { r1 with
          output := bwrite r1.output r1.cursor cr.bytes
          cursor := r1.cursor + cr.bytes.length
          compress := r1.compress ++ cr.newEntries } r1.cursor, some .tooBig)
    else
      ({ r1 with
          output := bwrite r1.output r1.cursor cr.bytes
          cursor := r1.cursor + cr.bytes.length
          compress := r1.compress ++ cr.newEntries
          counts := r1.counts.set s (r1.counts.getD s 0 + cr.n) }, none)

/-- `Renderer.write_header`: `_temporarily_seek_to(0)`, write the
12-byte big-endian header (id, flags, the four counts), restore the
cursor. -/
def Renderer.write_header (r : Renderer) : Renderer :=
  { r with
    output := bwrite r.output 0
      (pack16 r.id ++ pack16 r.flags ++ pack16 (r.counts.getD 0 0) ++
       pack16 (r.counts.getD 1 0) ++ pack16 (r.counts.getD 2 0) ++
       pack16 (r.counts.getD 3 0))
    cursor := r.cursor }

/-- `Renderer.get_wire`: `output.getvalue()`. -/
def Renderer.get_wire (r : Renderer) : List Nat := r.output

/-- `dns.edns.OptionType.PADDING`. -/
def PADDING : Nat := 12

/-- Modelled from the spec: the wire form of one EDNS option — the
16-bit option code, a 2-byte length, then the payload bytes (§6 wire
format; `dns.edns` is not under src/). -/
def optionWire (opt : Nat × List Nat) : List Nat :=
  pack16 opt.1 ++ pack16 opt.2.length ++ opt.2

/-- Concatenated wire form of an option list. -/
def optionsWire (opts : List (Nat × List Nat)) : List Nat :=
  opts.foldr (fun o acc => optionWire o ++ acc) []

/-- Modelled from the spec: the wire form of an OPT pseudo-record —
root owner name (one zero byte), type OPT (41), class carrying the
payload size, 32-bit ttl carrying the flags word, 2-byte rdata length,
then the options (§6 wire format; `dns.rdtypes.ANY.OPT` is not under
src/). -/
def optWire (ttlFlags payload : Nat) (opts : List (Nat × List Nat)) : List Nat :=
  [0] ++ pack16 41 ++ pack16 payload ++ pack32 ttlFlags ++
    pack16 (optionsWire opts).length ++ optionsWire opts

/-- The codec result of serializing an OPT rrset: its wire bytes, no
compression entries (the root name is never entered into the table),
one record. -/
def optCodec (ttlFlags payload : Nat) (opts : List (Nat × List Nat)) : CodecResult :=
  ⟨optWire ttlFlags payload opts, [], 1⟩

/-- `Renderer.add_opt(opt, pad, opt_size, tsig_size)`: with nonzero
`pad`, compute `remainder = (output.tell() + opt_size + tsig_size) %
pad`, build a zero-byte padding payload of `pad - remainder` bytes
(empty when the remainder is 0), append a PADDING option carrying it to
the OPT's options, set `was_padded`, and `add_rrset` the rebuilt OPT to
ADDITIONAL; with `pad = 0`, just `add_rrset` the OPT unchanged. -/
def Renderer.add_opt (r : Renderer) (ttlFlags payload : Nat)
    (opts : List (Nat × List Nat)) (pad opt_size tsig_size : Nat) :
    Renderer × Option DnsError :=
  if pad ≠ 0 then
    Renderer.addContent { r with was_padded := true } ADDITIONAL
      (optCodec ttlFlags payload (opts ++ [(PADDING,
        if (r.cursor + opt_size + tsig_size) % pad ≠ 0 then
          List.replicate (pad - (r.cursor + opt_size + tsig_size) % pad) 0
        else [])]))
  else
    Renderer.addContent r ADDITIONAL (optCodec ttlFlags payload opts)

/-- Run a sequence of content-adding calls, stopping at the first
failure. -/
def Renderer.runOps (r : Renderer) (ops : List (Nat × CodecResult)) :
    Renderer × Option DnsError :=
  match ops with
  | [] => (r, none)
  | op :: rest =>
    match Renderer.addContent r op.1 op.2 with
    | (r1, none) => Renderer.runOps r1 rest
    | (r1, some e) => (r1, some e)

/-- The total number of records a sequence of calls writes into section
`i`. -/
def tally (ops : List (Nat × CodecResult)) (i : Nat) : Nat :=
  ((ops.filter (fun op => op.1 = i)).map (fun op => op.2.n)).sum

theorem set_section_ok (r : Renderer) (s : Nat) (hs : r.«section» ≤ s) :
    r.set_section s = .ok { r with «section» := s } := by
  unfold Renderer.set_section
  by_cases h : r.«section» = s
  · subst h
    rw [if_neg (by omega)]
  · rw [if_pos h, if_neg (by omega)]

theorem bwrite_at_end (buf bs : List Nat) :
    bwrite buf buf.length bs = buf ++ bs := by
  unfold bwrite
  rw [List.take_length, Nat.sub_self, List.replicate_zero,
    List.drop_eq_nil_of_le (by omega), List.append_nil, List.append_nil]

/-- C1: a content-adding call targeting a legal section whose write
would push the buffer past `max_size` fails with `TooBig`, and the
buffer (hence its length), the compression table, and the four section
counts all equal their pre-call values.  Hypotheses: the cursor sits at
the end of the buffer, existing compression entries point below the
write position, and the codec's new entries point at or beyond it (the
Record Codec Contract: entries are inserted for names written by this
call). -/
theorem addContent_tooBig_rollback (r : Renderer) (s : Nat) (cr : CodecResult)
    (hsec : r.«section» ≤ s)
    (hcur : r.cursor = r.output.length)
    (hold : ∀ p ∈ r.compress, p.2 < r.cursor)
    (hnew : ∀ p ∈ cr.newEntries, r.cursor ≤ p.2)
    (hbig : r.cursor + cr.bytes.length > r.max_size) :
    (Renderer.addContent r s cr).2 = some .tooBig ∧
    (Renderer.addContent r s cr).1.output = r.output ∧
    (Renderer.addContent r s cr).1.output.length = r.output.length ∧
    (Renderer.addContent r s cr).1.compress = r.compress ∧
    (Renderer.addContent r s cr).1.counts = r.counts ∧
    (Renderer.addContent r s cr).1.cursor = r.cursor := by
  unfold Renderer.addContent
  rw [set_section_ok r s hsec]
  dsimp only
  rw [if_pos hbig]
  unfold Renderer.rollback
  dsimp only
  have hout : (bwrite r.output r.cursor cr.bytes).take r.cursor = r.output := by
    rw [hcur, bwrite_at_end, List.take_left]
  have hcmp : (r.compress ++ cr.newEntries).filter
      (fun p => decide (p.2 < r.cursor)) = r.compress := by
    rw [List.filter_append]
    rw [List.filter_eq_self.mpr (fun p hp => by
      simpa using hold p hp)]
    rw [List.filter_eq_nil_iff.mpr (fun p hp => by
      simpa using Nat.not_lt.mpr (hnew p hp))]
    rw [List.append_nil]
  exact ⟨rfl, hout, by rw [hout], hcmp, rfl, rfl⟩

theorem addContent_tooBig_rollback_witness :
    (Renderer.new 1 0 16).«section» ≤ 0 ∧
    (Renderer.new 1 0 16).cursor = (Renderer.new 1 0 16).output.length ∧
    (∀ p ∈ (Renderer.new 1 0 16).compress, p.2 < (Renderer.new 1 0 16).cursor) ∧
    (∀ p ∈ ([] : List (Nat × Nat)), (Renderer.new 1 0 16).cursor ≤ p.2) ∧
    (Renderer.new 1 0 16).cursor + ([1, 97, 0, 0, 1, 0, 1] : List Nat).length >
      (Renderer.new 1 0 16).max_size ∧
    (Renderer.addContent (Renderer.new 1 0 16) 0 ⟨[1, 97, 0, 0, 1, 0, 1], [], 1⟩).2 =
      some .tooBig ∧
    (Renderer.addContent (Renderer.new 1 0 16) 0 ⟨[1, 97, 0, 0, 1, 0, 1], [], 1⟩).1.output =
      (Renderer.new 1 0 16).output := by
  have h := addContent_tooBig_rollback (Renderer.new 1 0 16) 0
    ⟨[1, 97, 0, 0, 1, 0, 1], [], 1⟩ (by decide) (by decide) (by decide)
    (by decide) (by decide)
  exact ⟨by decide, by decide, by decide, by decide, by decide, h.1, h.2.1⟩

/-- C2: the current section is monotone non-decreasing over QUESTION <
ANSWER < AUTHORITY < ADDITIONAL: `set_section` is a no-op on equality,
fails with `FormError` on any move backward, and advances otherwise;
and a content-adding call targeting an earlier section fails with
`FormError` leaving the renderer — in particular the output buffer —
exactly as it was. -/
theorem set_section_monotone (r : Renderer) (s : Nat) (cr : CodecResult) :
    (r.«section» = s → r.set_section s = .ok r) ∧
    (r.«section» < s → r.set_section s = .ok { r with «section» := s }) ∧
    (s < r.«section» → r.set_section s = .error .formError ∧
      Renderer.addContent r s cr = (r, some .formError)) := by
  refine ⟨?_, ?_, ?_⟩
  · intro h
    subst h
    unfold Renderer.set_section
    rw [if_neg (by omega)]
  · intro h
    exact set_section_ok r s (by omega)
  · intro h
    have hform : r.set_section s = .error .formError := by
      unfold Renderer.set_section
      rw [if_pos (by omega), if_pos (by omega)]
    refine ⟨hform, ?_⟩
    unfold Renderer.addContent
    rw [hform]

theorem set_section_monotone_witness :
    (2 : Nat) < ({ Renderer.new 1 0 65535 with «section» := 3 } : Renderer).«section» ∧
    ({ Renderer.new 1 0 65535 with «section» := 3 } : Renderer).set_section 2 =
      .error .formError ∧
    Renderer.addContent { Renderer.new 1 0 65535 with «section» := 3 } 2
      ⟨[9], [], 1⟩ =
      ({ Renderer.new 1 0 65535 with «section» := 3 }, some .formError) := by
  have h := (set_section_monotone { Renderer.new 1 0 65535 with «section» := 3 } 2
    ⟨[9], [], 1⟩).2.2 (by decide)
  exact ⟨by decide, h.1, h.2⟩

theorem set_section_fields (r : Renderer) (s : Nat) (r1 : Renderer)
    (h : r.set_section s = .ok r1) :
    r1.id = r.id ∧ r1.flags = r.flags ∧ r1.counts = r.counts ∧
    r1.cursor = r.cursor ∧ r1.output = r.output ∧
    r1.compress = r.compress ∧ r1.max_size = r.max_size ∧
    r1.was_padded = r.was_padded := by
  unfold Renderer.set_section at h
  split at h
  · split at h
    · exact absurd h (by simp)
    · rw [Except.ok.injEq] at h
      subst h
      exact ⟨rfl, rfl, rfl, rfl, rfl, rfl, rfl, rfl⟩
  · rw [Except.ok.injEq] at h
    subst h
    exact ⟨rfl, rfl, rfl, rfl, rfl, rfl, rfl, rfl⟩

theorem addContent_ok_fields (r : Renderer) (s : Nat) (cr : CodecResult)
    (hok : (Renderer.addContent r s cr).2 = none) :
    (Renderer.addContent r s cr).1.id = r.id ∧
    (Renderer.addContent r s cr).1.flags = r.flags ∧
    (Renderer.addContent r s cr).1.counts =
      r.counts.set s (r.counts.getD s 0 + cr.n) := by
  unfold Renderer.addContent at hok ⊢
  cases hss : r.set_section s with
  | error e =>
    rw [hss] at hok
    exact absurd hok (by simp)
  | ok r1 =>
    obtain ⟨h1, h2, h3, h4, h5, h6, h7, h8⟩ := set_section_fields r s r1 hss
    rw [hss] at hok
    dsimp only at hok ⊢
    by_cases hcond : r1.cursor + cr.bytes.length > r1.max_size
    · rw [if_pos hcond] at hok
      exact absurd hok (by simp)
    · rw [if_neg hcond]
      refine ⟨h1, h2, ?_⟩
      show r1.counts.set s (r1.counts.getD s 0 + cr.n) =
        r.counts.set s (r.counts.getD s 0 + cr.n)
      rw [h3]

theorem tally_cons (op : Nat × CodecResult) (rest : List (Nat × CodecResult))
    (i : Nat) :
    tally (op :: rest) i = (if op.1 = i then op.2.n else 0) + tally rest i := by
  unfold tally
  by_cases h : op.1 = i
  · rw [List.filter_cons_of_pos (by simpa using h), if_pos h]
    simp
  · rw [List.filter_cons_of_neg (by simpa using h), if_neg h]
    simp

theorem runOps_counts (ops : List (Nat × CodecResult)) (r : Renderer)
    (hlen : r.counts.length = 4)
    (hsucc : (Renderer.runOps r ops).2 = none) :
    (Renderer.runOps r ops).1.id = r.id ∧
    (Renderer.runOps r ops).1.flags = r.flags ∧
    (Renderer.runOps r ops).1.counts.length = 4 ∧
    ∀ i, i < 4 → (Renderer.runOps r ops).1.counts.getD i 0 =
      r.counts.getD i 0 + tally ops i := by
  induction ops generalizing r with
  | nil =>
    refine ⟨rfl, rfl, hlen, ?_⟩
    intro i hi
    unfold tally
    simp [Renderer.runOps]
  | cons op rest ih =>
    unfold Renderer.runOps at hsucc ⊢
    cases hac : Renderer.addContent r op.1 op.2 with
    | mk r1 e =>
      cases e with
      | some err =>
        rw [hac] at hsucc
        dsimp only at hsucc
        exact absurd hsucc (by simp)
      | none =>
        rw [hac] at hsucc
        dsimp only at hsucc ⊢
        have hfields := addContent_ok_fields r op.1 op.2 (by rw [hac])
        rw [hac] at hfields
        dsimp only at hfields
        obtain ⟨hid1, hfl1, hcnts1⟩ := hfields
        have hlen1 : r1.counts.length = 4 := by
          rw [hcnts1, List.length_set, hlen]
        obtain ⟨ihid, ihfl, ihlen, ihcnt⟩ := ih r1 hlen1 hsucc
        refine ⟨by rw [ihid, hid1], by rw [ihfl, hfl1], ihlen, ?_⟩
        intro i hi
        rw [ihcnt i hi, hcnts1, tally_cons]
        by_cases hio : op.1 = i
        · subst hio
          rw [if_pos rfl]
          rw [List.getD_eq_getElem?_getD, List.getElem?_set_eq_of_lt _ (by omega)]
          simp only [Option.getD_some]
          omega
        · rw [if_neg hio]
          rw [List.getD_eq_getElem?_getD, List.getElem?_set_ne hio,
            ← List.getD_eq_getElem?_getD]
          omega

theorem bwrite_zero_take (buf bs : List Nat) (h : bs.length = 12) :
    (bwrite buf 0 bs).take 12 = bs := by
  unfold bwrite
  rw [List.take_zero, Nat.zero_sub, List.replicate_zero, List.nil_append,
    List.nil_append, Nat.zero_add, ← h, List.take_left]

/-- C3: starting from a fresh renderer, for every sequence of
section-ordered content-adding calls that all succeed, after
`write_header()` the first 12 bytes of `get_wire()` are, big-endian:
id (16 bits), flags (16 bits), then four 16-bit counts that exactly
equal the total number of records the calls appended to QUESTION,
ANSWER, AUTHORITY and ADDITIONAL respectively (each call contributing
the record count its codec write returned, possibly 0 or more than 1);
and `write_header` leaves the write cursor where it was.  The 16-bit
bounds keep the embedded `struct.pack("!H", ...)` faithful. -/
theorem write_header_counts (id flags max_size : Nat)
    (ops : List (Nat × CodecResult))
    (hid : id < 65536) (hfl : flags < 65536)
    (ht0 : tally ops 0 < 65536) (ht1 : tally ops 1 < 65536)
    (ht2 : tally ops 2 < 65536) (ht3 : tally ops 3 < 65536)
    (hsucc : (Renderer.runOps (Renderer.new id flags max_size) ops).2 = none) :
    ((Renderer.runOps (Renderer.new id flags max_size) ops).1.write_header).get_wire.take 12 =
      pack16 id ++ pack16 flags ++ pack16 (tally ops QUESTION) ++
      pack16 (tally ops ANSWER) ++ pack16 (tally ops AUTHORITY) ++
      pack16 (tally ops ADDITIONAL) ∧
    ((Renderer.runOps (Renderer.new id flags max_size) ops).1.write_header).cursor =
      (Renderer.runOps (Renderer.new id flags max_size) ops).1.cursor := by
  obtain ⟨hrid, hrfl, hrlen, hrcnt⟩ :=
    runOps_counts ops (Renderer.new id flags max_size) rfl hsucc
  refine ⟨?_, rfl⟩
  unfold Renderer.write_header Renderer.get_wire
  dsimp only
  rw [bwrite_zero_take _ _ (by simp [pack16])]
  rw [hrid, hrfl, hrcnt 0 (by omega), hrcnt 1 (by omega), hrcnt 2 (by omega),
    hrcnt 3 (by omega)]
  simp [Renderer.new, QUESTION, ANSWER, AUTHORITY, ADDITIONAL]

/-- Concrete call sequence for the C3 witness: one question, one
answer record. -/
def wops : List (Nat × CodecResult) :=
  [(0, ⟨[1, 97, 0, 0, 1, 0, 1], [(7, 12)], 1⟩),
   (1, ⟨[192, 12, 0, 1, 0, 1, 0, 0, 0, 0, 0, 4, 1, 2, 3, 4], [], 1⟩)]

theorem write_header_counts_witness :
    (Renderer.runOps (Renderer.new 1 0 65535) wops).2 = none ∧
    ((Renderer.runOps (Renderer.new 1 0 65535) wops).1.write_header).get_wire.take 12 =
      pack16 1 ++ pack16 0 ++ pack16 (tally wops QUESTION) ++
      pack16 (tally wops ANSWER) ++ pack16 (tally wops AUTHORITY) ++
      pack16 (tally wops ADDITIONAL) ∧
    ((Renderer.runOps (Renderer.new 1 0 65535) wops).1.write_header).cursor =
      (Renderer.runOps (Renderer.new 1 0 65535) wops).1.cursor := by
  have h := write_header_counts 1 0 65535 wops (by decide) (by decide) (by decide)
    (by decide) (by decide) (by decide) (by decide)
  exact ⟨by decide, h.1, h.2⟩

theorem pad_completes (x pad : Nat) (hpad : pad ≠ 0) :
    (x + (if x % pad = 0 then 0 else pad - x % pad)) % pad = 0 := by
  by_cases h : x % pad = 0
  · rw [if_pos h, Nat.add_zero, h]
  · rw [if_neg h]
    have hlt : x % pad < pad := Nat.mod_lt x (Nat.pos_of_ne_zero hpad)
    have hdm := Nat.div_add_mod x pad
    have hsum : x + (pad - x % pad) = pad * (x / pad + 1) := by
      rw [Nat.mul_add, Nat.mul_one]
      omega
    rw [hsum, Nat.mul_mod_right]

theorem addContent_preserves_was_padded (r : Renderer) (s : Nat)
    (cr : CodecResult) :
    (Renderer.addContent r s cr).1.was_padded = r.was_padded := by
  unfold Renderer.addContent
  cases hss : r.set_section s with
  | error e => rfl
  | ok r1 =>
    obtain ⟨h1, h2, h3, h4, h5, h6, h7, h8⟩ := set_section_fields r s r1 hss
    dsimp only
    by_cases hcond : r1.cursor + cr.bytes.length > r1.max_size
    · rw [if_pos hcond]
      exact h8
    · rw [if_neg hcond]
      exact h8

set_option maxRecDepth 10000 in
/-- C4: with nonzero `pad`, `add_opt` appends a PADDING option whose
payload is `pad - remainder` zero bytes when `remainder =
(buffer_length + opt_size + tsig_size) % pad` is nonzero and no bytes
when it is zero — so the projected padded total is an exact multiple of
`pad` — and marks the message as padded (also when the add itself is
rolled back).  Concretely: a message with one single-label question,
zero answers, and an OPT with `pad = 128`, empty options and no TSIG
renders to exactly 128 bytes, a multiple of 128. -/
theorem add_opt_padding (r : Renderer) (ttlFlags payload : Nat)
    (opts : List (Nat × List Nat)) (pad opt_size tsig_size : Nat)
    (hpad : pad ≠ 0) :
    Renderer.add_opt r ttlFlags payload opts pad opt_size tsig_size =
      Renderer.addContent { r with was_padded := true } ADDITIONAL
        (optCodec ttlFlags payload (opts ++ [(PADDING,
          List.replicate (if (r.cursor + opt_size + tsig_size) % pad = 0 then 0
            else pad - (r.cursor + opt_size + tsig_size) % pad) 0)])) ∧
    (r.cursor + opt_size + tsig_size +
      (if (r.cursor + opt_size + tsig_size) % pad = 0 then 0
        else pad - (r.cursor + opt_size + tsig_size) % pad)) % pad = 0 ∧
    (Renderer.add_opt r ttlFlags payload opts pad opt_size tsig_size).1.was_padded =
      true ∧
    (Renderer.add_opt (Renderer.addContent (Renderer.new 1 0 65535) QUESTION
        ⟨[1, 97, 0, 0, 1, 0, 1], [], 1⟩).1 0 1232 [] 128 15 0).2 = none ∧
    (Renderer.add_opt (Renderer.addContent (Renderer.new 1 0 65535) QUESTION
        ⟨[1, 97, 0, 0, 1, 0, 1], [], 1⟩).1 0 1232 [] 128 15 0).1.get_wire.length =
      128 := by
  have heq : Renderer.add_opt r ttlFlags payload opts pad opt_size tsig_size =
      Renderer.addContent { r with was_padded := true } ADDITIONAL
        (optCodec ttlFlags payload (opts ++ [(PADDING,
          List.replicate (if (r.cursor + opt_size + tsig_size) % pad = 0 then 0
            else pad - (r.cursor + opt_size + tsig_size) % pad) 0)])) := by
    unfold Renderer.add_opt
    rw [if_pos hpad]
    by_cases h : (r.cursor + opt_size + tsig_size) % pad = 0
    · rw [if_neg (by omega), if_pos h, List.replicate_zero]
    · rw [if_pos h, if_neg h]
  refine ⟨heq, pad_completes _ pad hpad, ?_, by decide, by decide⟩
  rw [heq, addContent_preserves_was_padded]

set_option maxRecDepth 10000 in
theorem add_opt_padding_witness :
    (128 : Nat) ≠ 0 ∧
    (Renderer.add_opt (Renderer.addContent (Renderer.new 1 0 65535) QUESTION
        ⟨[1, 97, 0, 0, 1, 0, 1], [], 1⟩).1 0 1232 [] 128 15 0).1.was_padded = true ∧
    (Renderer.add_opt (Renderer.addContent (Renderer.new 1 0 65535) QUESTION
        ⟨[1, 97, 0, 0, 1, 0, 1], [], 1⟩).1 0 1232 [] 128 15 0).1.get_wire.length =
      128 := by
  have h := add_opt_padding (Renderer.addContent (Renderer.new 1 0 65535) QUESTION
    ⟨[1, 97, 0, 0, 1, 0, 1], [], 1⟩).1 0 1232 [] 128 15 0 (by decide)
  exact ⟨by decide, h.2.2.1, h.2.2.2.2⟩
